import Mathlib

/-!
Verification of the p2pchat-go core against its specification.

The Go source is shallowly embedded: maps become association lists,
byte slices become `List Nat`, Go `int` becomes `Int` (with division
by zero modelled as a crash, i.e. `Option`), and calls into the Go
standard library (RSA, MD5, base64, PEM, JSON parsing) become explicit
function parameters carrying only the library's documented contract.
Each handler is translated line by line from the corresponding Go
function and keeps its name.
-/

set_option autoImplicit false

/-! ## Association lists: the embedding of Go maps

`lookupA`, `insertA`, `eraseA`, `updateA` model Go map read, write,
delete, and in-place mutation of the value stored under a key. -/

def lookupA {κ ν : Type} [DecidableEq κ] : List (κ × ν) → κ → Option ν
  | [], _ => none
  | (a, b) :: t, key => if a = key then some b else lookupA t key

def insertA {κ ν : Type} [DecidableEq κ] : List (κ × ν) → κ → ν → List (κ × ν)
  | [], key, val => [(key, val)]
  | (a, b) :: t, key, val =>
    if a = key then (key, val) :: t else (a, b) :: insertA t key val

def eraseA {κ ν : Type} [DecidableEq κ] : List (κ × ν) → κ → List (κ × ν)
  | [], _ => []
  | (a, b) :: t, key => if a = key then eraseA t key else (a, b) :: eraseA t key

def updateA {κ ν : Type} [DecidableEq κ] : List (κ × ν) → κ → (ν → ν) → List (κ × ν)
  | [], _, _ => []
  | (a, b) :: t, key, f =>
    if a = key then (a, f b) :: updateA t key f else (a, b) :: updateA t key f

/-! ## String helpers: the embedding of `strings.HasPrefix`,
`strings.TrimPrefix` and `strings.Split(s, ",")` -/

def chListHasPfx : List Char → List Char → Bool
  | [], _ => true
  | _ :: _, [] => false
  | a :: as, b :: bs => a = b && chListHasPfx as bs

/-- `strings.HasPrefix(s, p)` -/
def strHasPfx (p s : String) : Bool := chListHasPfx p.data s.data

/-- `strings.TrimPrefix(s, p)`: drops `p` from the front of `s` when present. -/
def strDropPfx (p s : String) : String :=
  if strHasPfx p s then ⟨s.data.drop p.data.length⟩ else s

def splitCommaCh : List Char → List (List Char)
  | [] => [[]]
  | c :: cs =>
    if c = ',' then [] :: splitCommaCh cs
    else match splitCommaCh cs with
      | [] => [[c]]
      | h :: t => (c :: h) :: t

/-- `strings.Split(s, ",")`: CSV split, one part per comma plus one. -/
def splitComma (s : String) : List String := (splitCommaCh s.data).map fun l => ⟨l⟩

/-! ## Messages and the routers

`Message` is the record placed on the node's inbound channel by the
per-peer reader (`readPeer`): sender id (first `|`-separated field of
the frame), the payload, and the connection id the frame arrived on. -/

structure Message where
  senderID : String
  content : String
  fromPeerID : String
  isGossip : Bool
deriving DecidableEq

/-- Where an inbound payload ends up after routing. -/
inductive Routed where
  /-- `KEY_EXCHANGE:` payload: the PEM remainder goes to `AddPeerKey`. -/
  | keyExchangeAdd (peerID : String) (pem : String)
  /-- Payload parsed as an `EncryptedMessage`: decrypt-and-dispatch branch. -/
  | encryptedBranch (raw : String)
  /-- Entries fed to the `PeerListGossip` channel. -/
  | gossipFeed (entries : List String)
  /-- Gossip payload with empty list: dropped. -/
  | gossipIgnoredEmpty
  /-- Forwarded verbatim to the UI sink. -/
  | uiForward (senderID : String) (content : String)
  /-- Payload starting with `/` from a remote sender: dropped by
  `handleEnhancedCLICommand`'s sender check. -/
  | remoteCommandDropped (content : String)
  /-- Payload starting with `/` from the local node id: command path. -/
  | localCommand (content : String)
deriving DecidableEq

/-- `Node.handleIncomingMessage` (message.go): the base router, which the
running `EnhancedNode` shadows. Feeds `GOSSIP_PEERS:` payloads to the
gossip channel and everything else to the UI sink. -/
def Node.handleIncomingMessage (msg : Message) : Routed :=
  if strHasPfx "GOSSIP_PEERS:" msg.content then
    let peerListStr := strDropPfx "GOSSIP_PEERS:" msg.content
    if peerListStr ≠ "" then .gossipFeed (splitComma peerListStr)
    else .gossipIgnoredEmpty
  else .uiForward msg.senderID msg.content

/-- `EnhancedNode.handleDecryptedMessage` (integration.go): commands go to
the CLI handler (which drops them unless the sender is the local node),
everything else goes to the UI sink. -/
def EnhancedNode.handleDecryptedMessage (selfID : String) (msg : Message) : Routed :=
  if strHasPfx "/" msg.content then
    if msg.senderID ≠ selfID then .remoteCommandDropped msg.content
    else .localCommand msg.content
  else .uiForward msg.senderID msg.content

/-- The peer-id-map update at the top of `EnhancedNode.handleIncomingMessage`
(integration.go): records `conn_id → sender node id` for every message with
both ids present and a non-self sender. -/
def EnhancedNode.updatePeerIDMap (selfID : String) (m : List (String × String))
    (msg : Message) : List (String × String) :=
  if msg.fromPeerID ≠ "" ∧ msg.senderID ≠ "" ∧ msg.senderID ≠ selfID then
    insertA m msg.fromPeerID msg.senderID
  else m

/-- The routing part of `EnhancedNode.handleIncomingMessage` (integration.go).
`parses` stands for `json.Unmarshal` over `EncryptedMessage` succeeding on
the payload (the encrypted branch itself is modelled separately with the
crypto manager). -/
def EnhancedNode.handleIncomingMessage (selfID : String) (parses : String → Bool)
    (msg : Message) : Routed :=
  if strHasPfx "KEY_EXCHANGE:" msg.content then
    .keyExchangeAdd msg.senderID (strDropPfx "KEY_EXCHANGE:" msg.content)
  else if parses msg.content then .encryptedBranch msg.content
  else EnhancedNode.handleDecryptedMessage selfID msg

/-- A concrete gossip frame as delivered by `readPeer` to the event loop of
the running node. -/
def gossipMsgC1 : Message :=
  { senderID := "127.0.0.1:7001"
    content := "GOSSIP_PEERS:127.0.0.1:7002,127.0.0.1:7003"
    fromPeerID := "127.0.0.1:52000"
    isGossip := false }

/-! ## File transfer state machine (file_sharing.go)

Byte slices are `List Nat`; Go `int` is `Int`. `md5hex` stands for
`fmt.Sprintf("%x", md5.Sum(_))` and `b64decode` for
`base64.StdEncoding.DecodeString`; both are opaque library functions,
so the handlers take them as parameters. -/

/-- Go integer division truncates toward zero and panics when the divisor
is zero; `none` models the runtime panic. -/
def goDiv (a b : Int) : Option Int := if b = 0 then none else some (Int.tdiv a b)

/-- `chunkSize = 8192` (file_sharing.go). -/
def chunkSize : Nat := 8192

/-- The `FileTransfer` record (file_sharing.go). `chunks` is the
`map[int][]byte` of chunk data keyed by chunk index. -/
structure FileTransfer where
  fileID : String
  fileName : String
  fileSize : Int
  chunks : List (Int × List Nat)
  totalChunks : Int
  status : String
  progress : Int
  peerID : String
  isOutgoing : Bool
  filePath : String
deriving DecidableEq

/-- The `FileMessage` wire record (file_sharing.go). `data` is the base64
encoded chunk payload. -/
structure FileMessage where
  type : String
  fileID : String
  fileName : String
  fileSize : Int
  chunkIndex : Int
  totalChunks : Int
  data : String
  checksum : String
deriving DecidableEq

/-- The `FileTransferManager` state: the `activeTransfers` map. -/
structure FileTransferManager where
  activeTransfers : List (String × FileTransfer)
deriving DecidableEq

/-- The loop of `splitIntoChunks`: takes `chunkSize` bytes per chunk,
numbering chunks from `i`. -/
def splitChunksAux (l : List Nat) (i : Int) : List (Int × List Nat) :=
  match l with
  | [] => []
  | d :: ds => (i, (d :: ds).take chunkSize) :: splitChunksAux ((d :: ds).drop chunkSize) (i + 1)
termination_by l.length
decreasing_by simp [List.length_drop, chunkSize]; omega

/-- `splitIntoChunks` (file_sharing.go): splits data into `chunkSize`-byte
chunks indexed from 0. -/
def splitIntoChunks (data : List Nat) : List (Int × List Nat) := splitChunksAux data 0

/-- The shared `transfer.Status = s` assignment (through the pointer stored
in the `activeTransfers` map). -/
def setTransferStatus (ftm : FileTransferManager) (fileID status : String) : FileTransferManager :=
  { activeTransfers := updateA ftm.activeTransfers fileID (fun t => { t with status := status }) }

/-- A status assignment immediately followed by `delete(ftm.activeTransfers, fileID)`. -/
def setStatusAndRemove (ftm : FileTransferManager) (fileID status : String) : FileTransferManager :=
  { activeTransfers := eraseA (updateA ftm.activeTransfers fileID
      (fun t => { t with status := status })) fileID }

/-- `handleFileRequest` (file_sharing.go): auto-accepts, creating an
`active` transfer record; the outcome of sending the `accept` message does
not change the map. -/
def handleFileRequest (ftm : FileTransferManager) (peerID : String) (fileMsg : FileMessage) :
    FileTransferManager :=
  let transfer : FileTransfer :=
    { fileID := fileMsg.fileID
      fileName := fileMsg.fileName
      fileSize := fileMsg.fileSize
      chunks := []
      totalChunks := fileMsg.totalChunks
      status := "active"
      progress := 0
      peerID := peerID
      isOutgoing := false
      filePath := "" }
  { activeTransfers := insertA ftm.activeTransfers fileMsg.fileID transfer }

/-- `handleFileChunk` (file_sharing.go): decode, check md5, store under
`chunk_index`, update progress. The progress line divides by
`transfer.TotalChunks`; `none` is the division-by-zero panic. -/
def handleFileChunk (md5hex : List Nat → String) (b64decode : String → Option (List Nat))
    (ftm : FileTransferManager) (peerID : String) (fileMsg : FileMessage) :
    Option FileTransferManager :=
  match lookupA ftm.activeTransfers fileMsg.fileID with
  | none => some ftm
  | some transfer =>
    match b64decode fileMsg.data with
    | none => some ftm
    | some chunkData =>
      if md5hex chunkData ≠ fileMsg.checksum then some ftm
      else
        let chunks1 := insertA transfer.chunks fileMsg.chunkIndex chunkData
        match goDiv ((chunks1.length : Int) * 100) transfer.totalChunks with
        | none => none
        | some prog =>
          some { activeTransfers := insertA ftm.activeTransfers fileMsg.fileID
                   { transfer with chunks := chunks1, progress := prog } }

/-- `handleFileReject` (file_sharing.go): mark failed and delete the entry. -/
def handleFileReject (ftm : FileTransferManager) (peerID : String) (fileMsg : FileMessage) :
    FileTransferManager :=
  match lookupA ftm.activeTransfers fileMsg.fileID with
  | none => ftm
  | some _ => setStatusAndRemove ftm fileMsg.fileID "failed"

/-- `[0, 1, ..., n-1]` as `Int`s: the `for i := 0; i < n; i++` index list. -/
def intRange (n : Int) : List Int := (List.range n.toNat).map (fun k => (k : Int))

/-- The assembly loop of `handleFileComplete`: concatenate chunks
`0 .. total_chunks-1`; `none` when an index is missing. -/
def assembleChunks (chunks : List (Int × List Nat)) : List Int → Option (List Nat)
  | [] => some []
  | i :: rest =>
    match lookupA chunks i with
    | none => none
    | some c => (assembleChunks chunks rest).map (fun r => c ++ r)

/-- `handleFileComplete` (file_sharing.go). `writeOk` is the outcome of
`os.MkdirAll` + `os.WriteFile` for the assembled bytes. Note the failure
paths set `failed` but do not delete the map entry; only the success path
deletes it. -/
def handleFileComplete (ftm : FileTransferManager) (peerID : String) (fileMsg : FileMessage)
    (writeOk : Bool) : FileTransferManager :=
  match lookupA ftm.activeTransfers fileMsg.fileID with
  | none => ftm
  | some transfer =>
    if (transfer.chunks.length : Int) ≠ transfer.totalChunks then
      setTransferStatus ftm fileMsg.fileID "failed"
    else
      match assembleChunks transfer.chunks (intRange transfer.totalChunks) with
      | none => setTransferStatus ftm fileMsg.fileID "failed"
      | some _ =>
        if writeOk then setStatusAndRemove ftm fileMsg.fileID "complete"
        else setTransferStatus ftm fileMsg.fileID "failed"

/-- The chunk loop of `sendFileChunks` (file_sharing.go): per chunk, a send
whose outcome is `chunkSendOk i`; failure marks the transfer failed, deletes
it and stops (`false`); success updates progress. The divisor
`transfer.TotalChunks` is at least 1 whenever the loop body runs. -/
def sendChunksLoop (fileID : String) (total : Int) (chunkSendOk : Int → Bool) :
    List Int → FileTransferManager → FileTransferManager × Bool
  | [], ftm => (ftm, true)
  | i :: rest, ftm =>
    if chunkSendOk i then
      sendChunksLoop fileID total chunkSendOk rest
        { activeTransfers := updateA ftm.activeTransfers fileID
            (fun t => { t with progress := Int.tdiv ((i + 1) * 100) total }) }
    else
      (setStatusAndRemove ftm fileID "failed", false)

/-- `handleFileAccept` (file_sharing.go) together with the `sendFileChunks`
goroutine it spawns, taken as one atomic handler step: set the transfer
active, send all chunks, then send `complete` (outcome `completeSendOk`;
on that send failing the function returns with the transfer still in the
map), mark complete and delete. -/
def handleFileAccept (ftm : FileTransferManager) (peerID : String) (fileMsg : FileMessage)
    (chunkSendOk : Int → Bool) (completeSendOk : Bool) : FileTransferManager :=
  match lookupA ftm.activeTransfers fileMsg.fileID with
  | none => ftm
  | some transfer =>
    let ftm1 := setTransferStatus ftm fileMsg.fileID "active"
    match sendChunksLoop fileMsg.fileID transfer.totalChunks chunkSendOk
        (intRange transfer.totalChunks) ftm1 with
    | (ftm2, false) => ftm2
    | (ftm2, true) =>
      if completeSendOk then setStatusAndRemove ftm2 fileMsg.fileID "complete"
      else ftm2

/-- `SendFile` (file_sharing.go): read the file, split it, record a
`pending` outgoing transfer, send the `request` (outcome `reqSendOk`);
on failure delete the record. `fileID` stands for `generateFileID()`. -/
def SendFile (ftm : FileTransferManager) (peerID fileID fileName filePath : String)
    (fileData : List Nat) (reqSendOk : Bool) : FileTransferManager :=
  let chunks := splitIntoChunks fileData
  let transfer : FileTransfer :=
    { fileID := fileID
      fileName := fileName
      fileSize := (fileData.length : Int)
      chunks := chunks
      totalChunks := (chunks.length : Int)
      status := "pending"
      progress := 0
      peerID := peerID
      isOutgoing := true
      filePath := filePath }
  let ftm1 : FileTransferManager := { activeTransfers := insertA ftm.activeTransfers fileID transfer }
  if reqSendOk then ftm1
  else { activeTransfers := eraseA ftm1.activeTransfers fileID }

/-- One handled file event: the five inbound message kinds dispatched by
`HandleFileMessage`, plus a local `SendFile` call. Send outcomes and the
filesystem outcome are carried by the event. -/
inductive FileEvent where
  | sendFile (peerID fileID fileName filePath : String) (fileData : List Nat) (reqSendOk : Bool)
  | request (peerID : String) (fileMsg : FileMessage)
  | accept (peerID : String) (fileMsg : FileMessage)
      (chunkSendOk : Int → Bool) (completeSendOk : Bool)
  | reject (peerID : String) (fileMsg : FileMessage)
  | chunk (peerID : String) (fileMsg : FileMessage)
  | complete (peerID : String) (fileMsg : FileMessage) (writeOk : Bool)

/-- Dispatch of one event, mirroring `HandleFileMessage`; `none` is a
runtime panic inside the handler. -/
def fileStep (md5hex : List Nat → String) (b64decode : String → Option (List Nat))
    (e : FileEvent) (ftm : FileTransferManager) : Option FileTransferManager :=
  match e with
  | .sendFile p fid fn fp d ok => some (SendFile ftm p fid fn fp d ok)
  | .request p fm => some (handleFileRequest ftm p fm)
  | .accept p fm cok compok => some (handleFileAccept ftm p fm cok compok)
  | .reject p fm => some (handleFileReject ftm p fm)
  | .chunk p fm => handleFileChunk md5hex b64decode ftm p fm
  | .complete p fm w => some (handleFileComplete ftm p fm w)

/-- A sequence of handled file events. -/
def runFileEvents (md5hex : List Nat → String) (b64decode : String → Option (List Nat)) :
    List FileEvent → FileTransferManager → Option FileTransferManager
  | [], ftm => some ftm
  | e :: es, ftm =>
    match fileStep md5hex b64decode e ftm with
    | none => none
    | some ftm1 => runFileEvents md5hex b64decode es ftm1

/-- No transfer held in `activeTransfers` has status `complete`. -/
def NoCompleteInMap (ftm : FileTransferManager) : Prop :=
  ∀ fid tr, lookupA ftm.activeTransfers fid = some tr → tr.status ≠ "complete"

/-! ### Concrete inputs used by the file-transfer theorems -/

/-- Stub for the md5 hex digest in traces that never handle a chunk. -/
def md5stubC2 : List Nat → String := fun _ => ""

/-- Stub for base64 decoding in traces that never handle a chunk. -/
def b64stubC2 : String → Option (List Nat) := fun _ => none

/-- An inbound `request` offering a 1-byte, 1-chunk file `f1`. -/
def fmReqC2 : FileMessage :=
  { type := "request", fileID := "f1", fileName := "a.bin", fileSize := 1
    chunkIndex := 0, totalChunks := 1, data := "", checksum := "" }

/-- An `accept`/`complete`-style message carrying only `file_id = f1`. -/
def fmIdC2 : FileMessage :=
  { type := "", fileID := "f1", fileName := "", fileSize := 0
    chunkIndex := 0, totalChunks := 0, data := "", checksum := "" }

/-- All chunk sends succeed. -/
def alwaysOkC2 : Int → Bool := fun _ => true

/-- The transfer record created by handling `fmReqC2` from peer `p`. -/
def trC2w : FileTransfer :=
  { fileID := "f1", fileName := "a.bin", fileSize := 1, chunks := []
    totalChunks := 1, status := "active", progress := 0, peerID := "p"
    isOutgoing := false, filePath := "" }

/-- An inbound `request` offering a 1-byte, 1-chunk file `g1`. -/
def fmReqC3 : FileMessage :=
  { type := "request", fileID := "g1", fileName := "b.bin", fileSize := 1
    chunkIndex := 0, totalChunks := 1, data := "", checksum := "" }

/-- A file message carrying only `file_id = g1`. -/
def fmIdC3 : FileMessage :=
  { type := "", fileID := "g1", fileName := "", fileSize := 0
    chunkIndex := 0, totalChunks := 0, data := "", checksum := "" }

/-- The active transfer record created by handling `fmReqC3` from peer `p`. -/
def trC3a : FileTransfer :=
  { fileID := "g1", fileName := "b.bin", fileSize := 1, chunks := []
    totalChunks := 1, status := "active", progress := 0, peerID := "p"
    isOutgoing := false, filePath := "" }

/-- An md5-hex stub mapping every byte list to `"cs"`; the C5 theorem holds
for every such function, this one makes the witness concrete. -/
def md5C5 : List Nat → String := fun _ => "cs"

/-- A base64-decode stub mapping every string to the byte list `[7]`. -/
def b64C5 : String → Option (List Nat) := fun _ => some [7]

/-- An active 2-chunk incoming transfer `h1` with no chunks stored yet. -/
def trC5 : FileTransfer :=
  { fileID := "h1", fileName := "c.bin", fileSize := 2, chunks := []
    totalChunks := 2, status := "active", progress := 0, peerID := "p"
    isOutgoing := false, filePath := "" }

/-- A chunk message for `h1` whose checksum matches `md5C5` of its data. -/
def fmChunkC5 : FileMessage :=
  { type := "chunk", fileID := "h1", fileName := "", fileSize := 0
    chunkIndex := 0, totalChunks := 2, data := "Bw==", checksum := "cs" }

/-- md5 hex of the empty byte string (the real digest value). -/
def md5C10 : List Nat → String := fun _ => "d41d8cd98f00b204e9800998ecf8427e"

/-- base64 decoding of `""` is the empty byte list. -/
def b64C10 : String → Option (List Nat) := fun _ => some []

/-- An inbound `request` offering an empty file: `total_chunks = 0`. -/
def fmReqC10 : FileMessage :=
  { type := "request", fileID := "e1", fileName := "empty.bin", fileSize := 0
    chunkIndex := 0, totalChunks := 0, data := "", checksum := "" }

/-- A chunk message for `e1` with empty data and its correct md5 checksum. -/
def fmChunkC10 : FileMessage :=
  { type := "chunk", fileID := "e1", fileName := "", fileSize := 0
    chunkIndex := 0, totalChunks := 0, data := ""
    checksum := "d41d8cd98f00b204e9800998ecf8427e" }

/-- A first message on connection `127.0.0.1:52000` carrying sender id
`127.0.0.1:7001`. -/
def msgA_C4 : Message :=
  { senderID := "127.0.0.1:7001", content := "hello"
    fromPeerID := "127.0.0.1:52000", isGossip := false }

/-- A later message on the same connection carrying a different sender id. -/
def msgB_C4 : Message :=
  { senderID := "127.0.0.1:7002", content := "world"
    fromPeerID := "127.0.0.1:52000", isGossip := false }

/-! ## CryptoManager (crypto.go)

The RSA, SHA-256, base64 and PEM primitives are Go standard library
calls, embedded as explicit function parameters; the envelope handlers
below are the repository's code around them. `K`/`P` are the public/private
key types, `σ` the base64 wire encoding of byte strings, `τ` the PEM text
form of a public key. `rsaEncryptOAEP`/`signPKCS1v15`/`marshalPKIX` return
`none` where the Go call returns an error. -/

/-- The `CryptoManager` state: own keypair and the per-peer key table. -/
structure CryptoManager (K P : Type) where
  privateKey : P
  publicKey : K
  peerKeys : List (String × K)

/-- The `EncryptedMessage` envelope (crypto.go): base64 ciphertext and
signature, sender's PEM public key, unix timestamp, and the type tag. -/
structure EncryptedMessage (σ τ : Type) where
  ciphertext : σ
  signature : σ
  senderPubKey : τ
  timestamp : Int
  messageType : String

/-- `CryptoManager.EncryptMessage` (crypto.go): look up the peer key
(`NoPeerKey` error when absent), RSA-OAEP encrypt, PKCS#1-v1.5 sign the
SHA-256 of the plaintext, marshal the own public key, and assemble the
envelope with base64 fields and a timestamp (`now`). -/
def CryptoManager.EncryptMessage {K P σ τ : Type}
    (rsaEncryptOAEP : K → List Nat → Option (List Nat))
    (signPKCS1v15 : P → List Nat → Option (List Nat))
    (sha256 : List Nat → List Nat)
    (b64encode : List Nat → σ)
    (marshalPKIX : K → Option τ)
    (now : Int)
    (cm : CryptoManager K P) (peerID : String) (plaintext : List Nat)
    (messageType : String) : Except String (EncryptedMessage σ τ) :=
  match lookupA cm.peerKeys peerID with
  | none => .error ("no public key for peer: " ++ peerID)
  | some peerPublicKey =>
    match rsaEncryptOAEP peerPublicKey plaintext with
    | none => .error "encryption failed"
    | some ciphertext =>
      match signPKCS1v15 cm.privateKey (sha256 plaintext) with
      | none => .error "signing failed"
      | some sig =>
        match marshalPKIX cm.publicKey with
        | none => .error "marshal public key failed"
        | some publicKeyPEM =>
          .ok { ciphertext := b64encode ciphertext
                signature := b64encode sig
                senderPubKey := publicKeyPEM
                timestamp := now
                messageType := messageType }

/-- `CryptoManager.DecryptMessage` (crypto.go): base64-decode the
ciphertext, RSA-OAEP decrypt with the own private key, base64-decode the
signature, parse the sender public key carried in the envelope, verify the
signature over SHA-256 of the plaintext, and return plaintext and type. -/
def CryptoManager.DecryptMessage {K P σ τ : Type}
    (rsaDecryptOAEP : P → List Nat → Option (List Nat))
    (verifyPKCS1v15 : K → List Nat → List Nat → Bool)
    (sha256 : List Nat → List Nat)
    (b64decode : σ → Option (List Nat))
    (parsePKIX : τ → Option K)
    (cm : CryptoManager K P) (encMsg : EncryptedMessage σ τ) :
    Except String (List Nat × String) :=
  match b64decode encMsg.ciphertext with
  | none => .error "failed to decode ciphertext"
  | some ciphertext =>
    match rsaDecryptOAEP cm.privateKey ciphertext with
    | none => .error "decryption failed"
    | some plaintext =>
      match b64decode encMsg.signature with
      | none => .error "failed to decode signature"
      | some sig =>
        match parsePKIX encMsg.senderPubKey with
        | none => .error "failed to parse sender public key"
        | some senderPublicKey =>
          if verifyPKCS1v15 senderPublicKey (sha256 plaintext) sig then
            .ok (plaintext, encMsg.messageType)
          else .error "signature verification failed"

/-- `EnhancedNode.broadcastEncrypted` (integration.go): for each connected
peer (`conn_id`, and whether its bounded send queue accepts the frame),
look up the stable node id in the peer-id map (skip when absent), encrypt
for that node id (skip on error, e.g. `NoPeerKey`), and try-send. The
result lists the frames placed on send queues, keyed by `conn_id`; all
failures are logged and skipped, the loop always runs to completion. -/
def EnhancedNode.broadcastEncrypted {K P σ τ : Type}
    (rsaEncryptOAEP : K → List Nat → Option (List Nat))
    (signPKCS1v15 : P → List Nat → Option (List Nat))
    (sha256 : List Nat → List Nat)
    (b64encode : List Nat → σ)
    (marshalPKIX : K → Option τ)
    (now : Int)
    (peers : List (String × Bool)) (peerIDMap : List (String × String))
    (cm : CryptoManager K P) (plaintext : List Nat) (msgType : String) :
    List (String × EncryptedMessage σ τ) :=
  match peers with
  | [] => []
  | (peerID, sendOk) :: rest =>
    let out := EnhancedNode.broadcastEncrypted rsaEncryptOAEP signPKCS1v15 sha256
      b64encode marshalPKIX now rest peerIDMap cm plaintext msgType
    match lookupA peerIDMap peerID with
    | none => out
    | some actualNodeID =>
      match CryptoManager.EncryptMessage rsaEncryptOAEP signPKCS1v15 sha256 b64encode
          marshalPKIX now cm actualNodeID plaintext msgType with
      | .error _ => out
      | .ok encryptedMsg => if sendOk then (peerID, encryptedMsg) :: out else out

/-! ### Concrete crypto primitives for the witnesses (they satisfy the
library contracts the theorems assume) -/

/-- A witness instantiation of RSA-OAEP encryption over `K = Nat`. -/
def idEncC7 : Nat → List Nat → Option (List Nat) := fun _ x => some x

/-- A witness instantiation of RSA-OAEP decryption over `P = Nat`. -/
def idDecC7 : Nat → List Nat → Option (List Nat) := fun _ c => some c

/-- A witness instantiation of PKCS#1-v1.5 signing. -/
def idSigC7 : Nat → List Nat → Option (List Nat) := fun _ h => some h

/-- A witness instantiation of PKCS#1-v1.5 verification. -/
def okVerC7 : Nat → List Nat → List Nat → Bool := fun _ _ _ => true

/-- A witness instantiation of SHA-256. -/
def idShaC7 : List Nat → List Nat := fun x => x

/-- A witness instantiation of base64 encoding (`σ = List Nat`). -/
def idB64eC7 : List Nat → List Nat := fun x => x

/-- A witness instantiation of base64 decoding. -/
def idB64dC7 : List Nat → Option (List Nat) := fun x => some x

/-- A witness instantiation of PKIX marshalling (`τ = Nat`). -/
def idMarC7 : Nat → Option Nat := fun k => some k

/-- A witness instantiation of PKIX parsing. -/
def idParC7 : Nat → Option Nat := fun k => some k

/-! ## Node peer table (node_impl.go) -/

/-- The `Peer` record, reduced to the field the peer-table claims are
about: its `conn_id` key (`ID` in node_impl.go). The socket, send queue
and done channel do not affect table membership. -/
structure Peer where
  id : String
deriving DecidableEq

/-- The `Node` peer-table state: own id, `Peers` keyed by conn id, and the
`KnownPeers` set. -/
structure Node where
  id : String
  peers : List (String × Peer)
  knownPeers : List String
deriving DecidableEq

/-- `Node.addPeer` (node_impl.go): if a peer with the same conn id exists,
close the new connection (`true`) and leave the table unchanged; otherwise
insert the peer and add it to `KnownPeers`. -/
def Node.addPeer (n : Node) (peer : Peer) : Node × Bool :=
  match lookupA n.peers peer.id with
  | some _ => (n, true)
  | none =>
    ({ n with
        peers := insertA n.peers peer.id peer
        knownPeers := if peer.id ∈ n.knownPeers then n.knownPeers
                      else n.knownPeers ++ [peer.id] }, false)

/-- `Node.connectToPeer` (node_impl.go): refuse self and empty addresses
and already-connected conn ids; otherwise dial (`some addr` is the dial
attempt handed to the network). -/
def Node.connectToPeer (n : Node) (addr : String) : Option String :=
  if addr = n.id ∨ addr = "" then none
  else
    match lookupA n.peers addr with
    | some _ => none
    | none => some addr

/-- The accept path of `Node.handleServer` (node_impl.go): a new socket
whose remote address is already in the table is closed (`true`) and no
peer is enqueued; otherwise a peer record is sent to the `NewPeer`
channel. -/
def Node.handleServerAccept (n : Node) (remoteAddr : String) : Bool × Option Peer :=
  match lookupA n.peers remoteAddr with
  | some _ => (true, none)
  | none => (false, some ⟨remoteAddr⟩)

/-! ## Theorems -/

theorem lookupA_insertA {κ ν : Type} [DecidableEq κ] (l : List (κ × ν)) (k j : κ) (v : ν) :
    lookupA (insertA l k v) j = if j = k then some v else lookupA l j := by
  induction l with
  | nil =>
    by_cases h : j = k
    · subst h; simp [insertA, lookupA]
    · have h' : ¬ k = j := fun hh => h hh.symm
      simp [insertA, lookupA, h, h']
  | cons p t ih =>
    obtain ⟨a, b⟩ := p
    by_cases hak : a = k
    · subst hak
      by_cases hj : j = a
      · subst hj; simp [insertA, lookupA]
      · have hj' : ¬ a = j := fun hh => hj hh.symm
        simp [insertA, lookupA, hj, hj']
    · by_cases haj : a = j
      · subst haj
        have hjk : ¬ a = k := hak
        simp [insertA, lookupA, hak, hjk]
      · simp [insertA, lookupA, hak, haj, ih]

theorem lookupA_eraseA {κ ν : Type} [DecidableEq κ] (l : List (κ × ν)) (k j : κ) :
    lookupA (eraseA l k) j = if j = k then none else lookupA l j := by
  induction l with
  | nil =>
    by_cases h : j = k <;> simp [eraseA, lookupA, h]
  | cons p t ih =>
    obtain ⟨a, b⟩ := p
    by_cases hak : a = k
    · subst hak
      by_cases hj : j = a
      · subst hj; simp [eraseA, lookupA, ih]
      · have hj' : ¬ a = j := fun hh => hj hh.symm
        simp [eraseA, lookupA, ih, hj, hj']
    · by_cases haj : a = j
      · subst haj
        have hjk : ¬ a = k := hak
        simp [eraseA, lookupA, hak, hjk]
      · simp [eraseA, lookupA, hak, haj, ih]

theorem lookupA_updateA {κ ν : Type} [DecidableEq κ] (l : List (κ × ν)) (k j : κ) (f : ν → ν) :
    lookupA (updateA l k f) j =
      if j = k then (lookupA l k).map f else lookupA l j := by
  induction l with
  | nil =>
    by_cases h : j = k <;> simp [updateA, lookupA, h]
  | cons p t ih =>
    obtain ⟨a, b⟩ := p
    by_cases hak : a = k
    · subst hak
      by_cases hj : j = a
      · subst hj; simp [updateA, lookupA]
      · have hj' : ¬ a = j := fun hh => hj hh.symm
        simp [updateA, lookupA, ih, hj, hj']
    · by_cases haj : a = j
      · subst haj
        have hjk : ¬ a = k := hak
        simp [updateA, lookupA, hak, hjk]
      · simp [updateA, lookupA, hak, haj, ih]

theorem lookupA_none_not_memKeys {κ ν : Type} [DecidableEq κ]
    (l : List (κ × ν)) (k : κ) (h : lookupA l k = none) :
    k ∉ l.map Prod.fst := by
  induction l with
  | nil => simp
  | cons p t ih =>
    obtain ⟨a, b⟩ := p
    by_cases hak : a = k
    · simp [lookupA, hak] at h
    · simp only [lookupA, hak, if_false] at h
      have hka : ¬ k = a := fun hh => hak hh.symm
      simp [List.mem_cons, hka, ih h]

/-- C1: the claim says the running node's router feeds `GOSSIP_PEERS:`
payloads to the gossip input. It does not: `EnhancedNode.handleIncomingMessage`
hands non-envelope plaintext to `handleDecryptedMessage`, which forwards the
gossip frame verbatim to the UI sink; only the shadowed (never invoked)
`Node.handleIncomingMessage` would split the CSV and feed the gossip channel.
The payload is not valid JSON, so `json.Unmarshal` fails (`parses` is false). -/
theorem c1_enhanced_router_drops_gossip :
    EnhancedNode.handleIncomingMessage "127.0.0.1:7005" (fun _ => false) gossipMsgC1 =
      .uiForward "127.0.0.1:7001" "GOSSIP_PEERS:127.0.0.1:7002,127.0.0.1:7003" ∧
    Node.handleIncomingMessage gossipMsgC1 =
      .gossipFeed ["127.0.0.1:7002", "127.0.0.1:7003"] := by
  constructor <;> decide

/-! ### Preservation of "no complete transfer in the map" -/

theorem noCompleteL_insert (l : List (String × FileTransfer)) (fid : String) (tr : FileTransfer)
    (h : ∀ j t, lookupA l j = some t → t.status ≠ "complete")
    (ht : tr.status ≠ "complete") :
    ∀ j t, lookupA (insertA l fid tr) j = some t → t.status ≠ "complete" := by
  intro j t hj
  rw [lookupA_insertA] at hj
  by_cases hjf : j = fid
  · rw [if_pos hjf] at hj
    injection hj with hj
    subst hj
    exact ht
  · rw [if_neg hjf] at hj
    exact h j t hj

theorem noCompleteL_update (l : List (String × FileTransfer)) (fid : String)
    (f : FileTransfer → FileTransfer)
    (h : ∀ j t, lookupA l j = some t → t.status ≠ "complete")
    (hf : ∀ t, t.status ≠ "complete" → (f t).status ≠ "complete") :
    ∀ j t, lookupA (updateA l fid f) j = some t → t.status ≠ "complete" := by
  intro j t hj
  rw [lookupA_updateA] at hj
  by_cases hjf : j = fid
  · rw [if_pos hjf] at hj
    cases hl : lookupA l fid with
    | none => rw [hl] at hj; simp at hj
    | some u =>
      rw [hl] at hj
      simp only [Option.map_some'] at hj
      injection hj with hj
      subst hj
      exact hf u (h fid u hl)
  · rw [if_neg hjf] at hj
    exact h j t hj

theorem noCompleteL_erase (l : List (String × FileTransfer)) (fid : String)
    (h : ∀ j t, lookupA l j = some t → t.status ≠ "complete") :
    ∀ j t, lookupA (eraseA l fid) j = some t → t.status ≠ "complete" := by
  intro j t hj
  rw [lookupA_eraseA] at hj
  by_cases hjf : j = fid
  · rw [if_pos hjf] at hj; cases hj
  · rw [if_neg hjf] at hj; exact h j t hj

theorem noCompleteL_eraseUpdate (l : List (String × FileTransfer)) (fid : String)
    (f : FileTransfer → FileTransfer)
    (h : ∀ j t, lookupA l j = some t → t.status ≠ "complete") :
    ∀ j t, lookupA (eraseA (updateA l fid f) fid) j = some t → t.status ≠ "complete" := by
  intro j t hj
  rw [lookupA_eraseA] at hj
  by_cases hjf : j = fid
  · rw [if_pos hjf] at hj; cases hj
  · rw [if_neg hjf, lookupA_updateA, if_neg hjf] at hj
    exact h j t hj

theorem sendChunksLoop_noComplete (fid : String) (total : Int) (cok : Int → Bool) :
    ∀ (is : List Int) (ftm : FileTransferManager), NoCompleteInMap ftm →
      NoCompleteInMap (sendChunksLoop fid total cok is ftm).1 := by
  intro is
  induction is with
  | nil => intro ftm h; exact h
  | cons i rest ih =>
    intro ftm h
    cases hc : cok i with
    | true =>
      simp only [sendChunksLoop, hc, if_true]
      exact ih _ (noCompleteL_update ftm.activeTransfers fid _ h (fun t ht => ht))
    | false =>
      simp only [sendChunksLoop, hc, Bool.false_eq_true, if_false]
      exact noCompleteL_eraseUpdate ftm.activeTransfers fid _ h

theorem fileStep_noComplete (md5hex : List Nat → String) (b64decode : String → Option (List Nat))
    (e : FileEvent) (ftm ftm' : FileTransferManager)
    (hst : fileStep md5hex b64decode e ftm = some ftm') (h : NoCompleteInMap ftm) :
    NoCompleteInMap ftm' := by
  cases e with
  | sendFile p fid fn fp d ok =>
    simp only [fileStep] at hst
    injection hst with he
    subst he
    cases hok : ok with
    | true =>
      simp only [SendFile, hok, if_true]
      exact noCompleteL_insert ftm.activeTransfers fid _ h
        (by show ("pending" : String) ≠ "complete"; decide)
    | false =>
      simp only [SendFile, hok, Bool.false_eq_true, if_false]
      exact noCompleteL_erase _ fid (noCompleteL_insert ftm.activeTransfers fid _ h
        (by show ("pending" : String) ≠ "complete"; decide))
  | request p fm =>
    simp only [fileStep] at hst
    injection hst with he
    subst he
    simp only [handleFileRequest]
    exact noCompleteL_insert ftm.activeTransfers fm.fileID _ h
      (by show ("active" : String) ≠ "complete"; decide)
  | accept p fm cok compok =>
    simp only [fileStep] at hst
    injection hst with he
    subst he
    simp only [handleFileAccept]
    split
    · exact h
    · rename_i transfer heq
      have h1 : NoCompleteInMap (setTransferStatus ftm fm.fileID "active") :=
        noCompleteL_update ftm.activeTransfers fm.fileID _ h
          (fun t _ => by show ("active" : String) ≠ "complete"; decide)
      have h2 := sendChunksLoop_noComplete fm.fileID transfer.totalChunks cok
        (intRange transfer.totalChunks) _ h1
      split
      · rename_i ftm2 heq2
        rw [heq2] at h2
        exact h2
      · rename_i ftm2 heq2
        rw [heq2] at h2
        split
        · exact noCompleteL_eraseUpdate ftm2.activeTransfers fm.fileID _ h2
        · exact h2
  | reject p fm =>
    simp only [fileStep] at hst
    injection hst with he
    subst he
    simp only [handleFileReject]
    split
    · exact h
    · exact noCompleteL_eraseUpdate ftm.activeTransfers fm.fileID _ h
  | chunk p fm =>
    simp only [fileStep, handleFileChunk] at hst
    split at hst
    · injection hst with he
      subst he
      exact h
    · rename_i transfer heq
      split at hst
      · injection hst with he
        subst he
        exact h
      · rename_i chunkData heqd
        split at hst
        · injection hst with he
          subst he
          exact h
        · split at hst
          · cases hst
          · injection hst with he
            subst he
            exact noCompleteL_insert ftm.activeTransfers fm.fileID _ h
              (h fm.fileID transfer heq)
  | complete p fm w =>
    simp only [fileStep] at hst
    injection hst with he
    subst he
    simp only [handleFileComplete]
    split
    · exact h
    · split
      · exact noCompleteL_update ftm.activeTransfers fm.fileID _ h
          (fun t _ => by show ("failed" : String) ≠ "complete"; decide)
      · split
        · exact noCompleteL_update ftm.activeTransfers fm.fileID _ h
            (fun t _ => by show ("failed" : String) ≠ "complete"; decide)
        · split
          · exact noCompleteL_eraseUpdate ftm.activeTransfers fm.fileID _ h
          · exact noCompleteL_update ftm.activeTransfers fm.fileID _ h
              (fun t _ => by show ("failed" : String) ≠ "complete"; decide)

theorem runFileEvents_noComplete (md5hex : List Nat → String)
    (b64decode : String → Option (List Nat)) :
    ∀ (evs : List FileEvent) (ftm ftm' : FileTransferManager), NoCompleteInMap ftm →
      runFileEvents md5hex b64decode evs ftm = some ftm' → NoCompleteInMap ftm' := by
  intro evs
  induction evs with
  | nil =>
    intro ftm ftm' h hr
    simp only [runFileEvents] at hr
    injection hr with he
    subst he
    exact h
  | cons e es ih =>
    intro ftm ftm' h hr
    simp only [runFileEvents] at hr
    cases hstep : fileStep md5hex b64decode e ftm with
    | none => rw [hstep] at hr; cases hr
    | some ftm1 =>
      rw [hstep] at hr
      exact ih ftm1 ftm' (fileStep_noComplete md5hex b64decode e ftm ftm1 hstep h) hr

/-- C2, amended. As stated the claim is false (see
`c2_counterexample_failed_to_active`): `failed` is not terminal, because
`handleFileComplete`'s failure paths leave the failed transfer in
`ActiveTransfers` and a later `accept` message sets it back to `active`.
What does hold is the `complete` half of the claim: after any sequence of
handled file messages (including local `SendFile` calls and the chunk
sending triggered by `accept`, with arbitrary send/write outcomes), no
transfer reachable in `ActiveTransfers` has status `complete` — every
handler that sets `complete` removes the entry in the same step, and since
handlers only mutate transfers found in the map, a transfer that reached
`complete` is never mutated again. -/
theorem c2_status_complete_terminal (md5hex : List Nat → String)
    (b64decode : String → Option (List Nat)) (evs : List FileEvent)
    (ftm' : FileTransferManager)
    (h : runFileEvents md5hex b64decode evs ⟨[]⟩ = some ftm')
    (fid : String) (tr : FileTransfer)
    (hlk : lookupA ftm'.activeTransfers fid = some tr) : tr.status ≠ "complete" := by
  refine runFileEvents_noComplete md5hex b64decode evs ⟨[]⟩ ftm' ?_ h fid tr hlk
  intro j t hj
  simp [lookupA] at hj

/-- C2, witness for `c2_status_complete_terminal`: after handling one
`request`, the created transfer is in the map and its status is not
`complete`. -/
theorem c2_status_complete_terminal_witness :
    runFileEvents md5stubC2 b64stubC2 [.request "p" fmReqC2] ⟨[]⟩ = some ⟨[("f1", trC2w)]⟩ ∧
    trC2w.status ≠ "complete" :=
  ⟨by decide,
   c2_status_complete_terminal md5stubC2 b64stubC2 [.request "p" fmReqC2]
     ⟨[("f1", trC2w)]⟩ (by decide) "f1" trC2w (by decide)⟩

/-- C2, counterexample to the claim as stated: handle `request` for a
1-chunk file `f1`, then `complete` (0 of 1 chunks present, so the handler
sets the transfer `failed` and leaves it in the map), then `accept`
(all chunk sends succeed, the final `complete`-frame send fails). The
`accept` handler sets the failed transfer back to `active`: its status is
`failed` after the second event and `active` after the third, so a
transfer's status does change after being set to `failed`. -/
theorem c2_counterexample_failed_to_active :
    ((runFileEvents md5stubC2 b64stubC2
        [.request "p" fmReqC2, .complete "p" fmIdC2 true] ⟨[]⟩).bind
      (fun st => (lookupA st.activeTransfers "f1").map FileTransfer.status)) = some "failed" ∧
    ((runFileEvents md5stubC2 b64stubC2
        [.request "p" fmReqC2, .complete "p" fmIdC2 true,
         .accept "p" fmIdC2 alwaysOkC2 false] ⟨[]⟩).bind
      (fun st => (lookupA st.activeTransfers "f1").map FileTransfer.status)) = some "active" := by
  constructor <;> decide

/-- The chunk-sending loop either removes the transfer (on a failed send)
or leaves it in the map with status `active`. -/
theorem sendChunksLoop_lookup (fid : String) (total : Int) (cok : Int → Bool) :
    ∀ (is : List Int) (ftm : FileTransferManager) (tr : FileTransfer),
      lookupA ftm.activeTransfers fid = some tr → tr.status = "active" →
      lookupA (sendChunksLoop fid total cok is ftm).1.activeTransfers fid = none ∨
      ∃ tr2, lookupA (sendChunksLoop fid total cok is ftm).1.activeTransfers fid = some tr2 ∧
        tr2.status = "active" := by
  intro is
  induction is with
  | nil => intro ftm tr hl hs; right; exact ⟨tr, hl, hs⟩
  | cons i rest ih =>
    intro ftm tr hl hs
    cases hc : cok i with
    | true =>
      simp only [sendChunksLoop, hc, if_true]
      have h1 : lookupA (updateA ftm.activeTransfers fid
          (fun t => { t with progress := Int.tdiv ((i + 1) * 100) total })) fid
          = some { tr with progress := Int.tdiv ((i + 1) * 100) total } := by
        rw [lookupA_updateA, if_pos rfl, hl]
        rfl
      exact ih _ _ h1 hs
    | false =>
      simp only [sendChunksLoop, hc, Bool.false_eq_true, if_false]
      left
      show lookupA (eraseA (updateA ftm.activeTransfers fid _) fid) fid = none
      rw [lookupA_eraseA, if_pos rfl]

/-- C3, amended. As stated the claim is false (see
`c3_counterexample_failed_left_in_map`): the failure paths of
`handleFileComplete` set the transfer `failed` but leave its entry in
`ActiveTransfers`. The removal half that does hold: `handleFileReject`
always leaves no entry under the message's file id; `handleFileComplete`'s
success path (all chunks present, assembly succeeds, write succeeds)
removes the entry, while its length-mismatch path provably leaves the entry
with status `failed`; after `handleFileAccept` (which runs the chunk
sending) the entry is either removed (mid-stream send failure, or the
`complete` frame was sent) or still `active`; a `SendFile` whose request
send fails leaves no entry. -/
theorem c3_terminal_entries_removed :
    (∀ (ftm : FileTransferManager) (p : String) (fm : FileMessage),
        lookupA (handleFileReject ftm p fm).activeTransfers fm.fileID = none) ∧
    (∀ (ftm : FileTransferManager) (p : String) (fm : FileMessage) (tr : FileTransfer),
        lookupA ftm.activeTransfers fm.fileID = some tr →
        (tr.chunks.length : Int) = tr.totalChunks →
        (∃ bs, assembleChunks tr.chunks (intRange tr.totalChunks) = some bs) →
        lookupA (handleFileComplete ftm p fm true).activeTransfers fm.fileID = none) ∧
    (∀ (ftm : FileTransferManager) (p : String) (fm : FileMessage) (tr : FileTransfer) (w : Bool),
        lookupA ftm.activeTransfers fm.fileID = some tr →
        (tr.chunks.length : Int) ≠ tr.totalChunks →
        lookupA (handleFileComplete ftm p fm w).activeTransfers fm.fileID =
          some { tr with status := "failed" }) ∧
    (∀ (ftm : FileTransferManager) (p : String) (fm : FileMessage)
        (cok : Int → Bool) (compok : Bool),
        lookupA (handleFileAccept ftm p fm cok compok).activeTransfers fm.fileID = none ∨
        ∃ tr2, lookupA (handleFileAccept ftm p fm cok compok).activeTransfers fm.fileID
            = some tr2 ∧ tr2.status = "active") ∧
    (∀ (ftm : FileTransferManager) (p fid fn fp : String) (d : List Nat),
        lookupA (SendFile ftm p fid fn fp d false).activeTransfers fid = none) := by
  refine ⟨?_, ?_, ?_, ?_, ?_⟩
  · intro ftm p fm
    simp only [handleFileReject]
    split
    · rename_i heq
      exact heq
    · simp only [setStatusAndRemove]
      rw [lookupA_eraseA, if_pos rfl]
  · intro ftm p fm tr hl hlen hex
    obtain ⟨bs, hbs⟩ := hex
    have hlen' : ¬ ((tr.chunks.length : Int) ≠ tr.totalChunks) := fun hc => hc hlen
    simp only [handleFileComplete, hl]
    rw [if_neg hlen']
    simp only [hbs, if_true]
    simp only [setStatusAndRemove]
    rw [lookupA_eraseA, if_pos rfl]
  · intro ftm p fm tr w hl hlen
    simp only [handleFileComplete, hl]
    rw [if_pos hlen]
    simp only [setTransferStatus]
    rw [lookupA_updateA, if_pos rfl, hl]
    rfl
  · intro ftm p fm cok compok
    simp only [handleFileAccept]
    split
    · rename_i heq
      left
      exact heq
    · rename_i transfer heq
      have h1 : lookupA (setTransferStatus ftm fm.fileID "active").activeTransfers fm.fileID
          = some { transfer with status := "active" } := by
        simp only [setTransferStatus]
        rw [lookupA_updateA, if_pos rfl, heq]
        rfl
      have h2 := sendChunksLoop_lookup fm.fileID transfer.totalChunks cok
        (intRange transfer.totalChunks) _ _ h1 rfl
      split
      · rename_i ftm2 heq2
        rw [heq2] at h2
        exact h2
      · rename_i ftm2 heq2
        rw [heq2] at h2
        split
        · left
          simp only [setStatusAndRemove]
          rw [lookupA_eraseA, if_pos rfl]
        · exact h2
  · intro ftm p fid fn fp d
    simp only [SendFile, Bool.false_eq_true, if_false]
    rw [lookupA_eraseA, if_pos rfl]

/-- C3, witness for `c3_terminal_entries_removed`: a reject removes the
entry, and a `complete` on a transfer missing chunks leaves the entry with
status `failed`. -/
theorem c3_terminal_entries_removed_witness :
    lookupA (handleFileReject ⟨[]⟩ "p" fmIdC3).activeTransfers fmIdC3.fileID = none ∧
    lookupA (handleFileComplete ⟨[("g1", trC3a)]⟩ "p" fmIdC3 true).activeTransfers
        fmIdC3.fileID = some { trC3a with status := "failed" } :=
  ⟨c3_terminal_entries_removed.1 ⟨[]⟩ "p" fmIdC3,
   c3_terminal_entries_removed.2.2.1 ⟨[("g1", trC3a)]⟩ "p" fmIdC3 trC3a true
     (by decide) (by decide)⟩

/-- C3, counterexample to the claim as stated: after `request` (1-chunk
file `g1`) and then `complete` (0 of 1 chunks present), the handler has
returned and `ActiveTransfers` still contains the `g1` entry with status
`failed`. -/
theorem c3_counterexample_failed_left_in_map :
    runFileEvents md5stubC2 b64stubC2
        [.request "p" fmReqC3, .complete "p" fmIdC3 true] ⟨[]⟩ =
      some ⟨[("g1", { trC3a with status := "failed" })]⟩ ∧
    ({ trC3a with status := "failed" } : FileTransfer).status = "failed" := by
  constructor <;> decide

/-- C5: for a chunk message addressed to a transfer in `ActiveTransfers`
(with nonzero `total_chunks`, see the C10 theorem for the zero case) whose
data decodes to `d`: the handler stores `d` under `chunk_index` and updates
`progress` to `|chunks| * 100 / total_chunks` exactly when `md5hex d`
equals the message checksum; on a mismatch the state is unchanged; and any
chunk present in the table afterwards was either there before or matches
the delivering message's checksum. -/
theorem c5_chunk_stored_iff_checksum (md5hex : List Nat → String)
    (b64decode : String → Option (List Nat)) (ftm : FileTransferManager)
    (p : String) (fm : FileMessage) (tr : FileTransfer) (d : List Nat)
    (hl : lookupA ftm.activeTransfers fm.fileID = some tr)
    (hd : b64decode fm.data = some d)
    (htot : tr.totalChunks ≠ 0) :
    (md5hex d = fm.checksum →
      handleFileChunk md5hex b64decode ftm p fm =
        some ⟨insertA ftm.activeTransfers fm.fileID
          { tr with chunks := insertA tr.chunks fm.chunkIndex d,
                    progress := Int.tdiv
                      (((insertA tr.chunks fm.chunkIndex d).length : Int) * 100)
                      tr.totalChunks }⟩) ∧
    (md5hex d ≠ fm.checksum → handleFileChunk md5hex b64decode ftm p fm = some ftm) ∧
    (∀ ftm', handleFileChunk md5hex b64decode ftm p fm = some ftm' →
      ∀ tr', lookupA ftm'.activeTransfers fm.fileID = some tr' →
      ∀ i c, lookupA tr'.chunks i = some c →
        lookupA tr.chunks i = some c ∨ md5hex c = fm.checksum) := by
  refine ⟨?_, ?_, ?_⟩
  · intro hm
    have hm' : ¬ (md5hex d ≠ fm.checksum) := fun hc => hc hm
    simp only [handleFileChunk, hl, hd]
    rw [if_neg hm']
    simp only [goDiv]
    rw [if_neg htot]
  · intro hm
    simp only [handleFileChunk, hl, hd]
    rw [if_pos hm]
  · intro ftm' hst tr' hl' i c hc
    by_cases hm : md5hex d = fm.checksum
    · have hm' : ¬ (md5hex d ≠ fm.checksum) := fun hcc => hcc hm
      simp only [handleFileChunk, hl, hd] at hst
      rw [if_neg hm'] at hst
      simp only [goDiv] at hst
      rw [if_neg htot] at hst
      injection hst with he
      subst he
      dsimp only at hl'
      rw [lookupA_insertA, if_pos rfl] at hl'
      injection hl' with hl'
      subst hl'
      dsimp only at hc
      rw [lookupA_insertA] at hc
      by_cases hi : i = fm.chunkIndex
      · rw [if_pos hi] at hc
        injection hc with hc
        subst hc
        right
        exact hm
      · rw [if_neg hi] at hc
        left
        exact hc
    · simp only [handleFileChunk, hl, hd] at hst
      rw [if_pos hm] at hst
      injection hst with he
      subst he
      rw [hl] at hl'
      injection hl' with hl'
      subst hl'
      left
      exact hc

/-- C5, witness for `c5_chunk_stored_iff_checksum`: a matching chunk is
stored and progress becomes `1 * 100 / 2 = 50`. -/
theorem c5_chunk_stored_iff_checksum_witness :
    handleFileChunk md5C5 b64C5 ⟨[("h1", trC5)]⟩ "p" fmChunkC5 =
      some ⟨[("h1", { trC5 with chunks := [((0 : Int), [7])], progress := 50 })]⟩ :=
  (c5_chunk_stored_iff_checksum md5C5 b64C5 ⟨[("h1", trC5)]⟩ "p" fmChunkC5 trC5 [7]
    (by decide) (by decide) (by decide)).1 (by decide)

/-- C10: the claim says handling an inbound chunk never divides by zero,
including for a transfer created by accepting a `total_chunks = 0` offer.
It does: `handleFileRequest` accepts the empty-file offer `e1` creating an
active transfer with `total_chunks = 0`, and a subsequent chunk message
with a correct checksum reaches `progress = len(chunks) * 100 / 0`, an
integer division by zero (a Go runtime panic, `none` in this embedding). -/
theorem c10_chunk_division_by_zero_panic :
    handleFileChunk md5C10 b64C10
      (handleFileRequest ⟨[]⟩ "p" fmReqC10) "p" fmChunkC10 = none := by
  decide

/-! ### Chunking -/

theorem splitChunksAux_nil (i : Int) : splitChunksAux [] i = [] := by
  simp [splitChunksAux]

theorem splitChunksAux_cons (d : Nat) (ds : List Nat) (i : Int) :
    splitChunksAux (d :: ds) i =
      (i, (d :: ds).take chunkSize) :: splitChunksAux ((d :: ds).drop chunkSize) (i + 1) := by
  rw [splitChunksAux]

theorem splitChunksAux_flatten : ∀ (n : Nat) (l : List Nat), l.length ≤ n → ∀ i : Int,
    ((splitChunksAux l i).map Prod.snd).flatten = l := by
  intro n
  induction n with
  | zero =>
    intro l hl i
    have hnil : l = [] := List.length_eq_zero.mp (Nat.le_zero.mp hl)
    subst hnil
    simp [splitChunksAux_nil]
  | succ n ih =>
    intro l hl i
    cases l with
    | nil => simp [splitChunksAux_nil]
    | cons d ds =>
      have hlen : ((d :: ds).drop chunkSize).length ≤ n := by
        rw [List.length_drop]
        have hc : chunkSize = 8192 := rfl
        simp only [List.length_cons] at hl ⊢
        omega
      rw [splitChunksAux_cons]
      simp only [List.map_cons, List.flatten_cons]
      rw [ih _ hlen (i + 1)]
      exact List.take_append_drop chunkSize (d :: ds)

theorem splitChunksAux_length : ∀ (n : Nat) (l : List Nat), l.length ≤ n → ∀ i : Int,
    (splitChunksAux l i).length = (l.length + (chunkSize - 1)) / chunkSize := by
  intro n
  induction n with
  | zero =>
    intro l hl i
    have hnil : l = [] := List.length_eq_zero.mp (Nat.le_zero.mp hl)
    subst hnil
    simp only [splitChunksAux_nil, List.length_nil, chunkSize]
  | succ n ih =>
    intro l hl i
    cases l with
    | nil =>
      simp only [splitChunksAux_nil, List.length_nil, chunkSize]
    | cons d ds =>
      have hlen : ((d :: ds).drop chunkSize).length ≤ n := by
        rw [List.length_drop]
        have hc : chunkSize = 8192 := rfl
        simp only [List.length_cons] at hl ⊢
        omega
      rw [splitChunksAux_cons]
      simp only [List.length_cons]
      rw [ih _ hlen (i + 1), List.length_drop]
      have hc : chunkSize = 8192 := rfl
      simp only [List.length_cons, hc]
      omega

theorem splitChunksAux_sizes : ∀ (n : Nat) (l : List Nat), l.length ≤ n → ∀ i : Int,
    ∀ p ∈ splitChunksAux l i, p.2.length ≤ chunkSize := by
  intro n
  induction n with
  | zero =>
    intro l hl i
    have hnil : l = [] := List.length_eq_zero.mp (Nat.le_zero.mp hl)
    subst hnil
    simp [splitChunksAux_nil]
  | succ n ih =>
    intro l hl i
    cases l with
    | nil => simp [splitChunksAux_nil]
    | cons d ds =>
      have hlen : ((d :: ds).drop chunkSize).length ≤ n := by
        rw [List.length_drop]
        have hc : chunkSize = 8192 := rfl
        simp only [List.length_cons] at hl ⊢
        omega
      rw [splitChunksAux_cons]
      intro p hp
      rcases List.mem_cons.mp hp with hph | hpt
      · subst hph
        exact List.length_take_le chunkSize (d :: ds)
      · exact ih _ hlen (i + 1) p hpt

theorem splitChunksAux_dropLast_sizes : ∀ (n : Nat) (l : List Nat), l.length ≤ n → ∀ i : Int,
    ∀ p ∈ (splitChunksAux l i).dropLast, p.2.length = chunkSize := by
  intro n
  induction n with
  | zero =>
    intro l hl i
    have hnil : l = [] := List.length_eq_zero.mp (Nat.le_zero.mp hl)
    subst hnil
    simp [splitChunksAux_nil]
  | succ n ih =>
    intro l hl i
    cases l with
    | nil => simp [splitChunksAux_nil]
    | cons d ds =>
      have hlen : ((d :: ds).drop chunkSize).length ≤ n := by
        rw [List.length_drop]
        have hc : chunkSize = 8192 := rfl
        simp only [List.length_cons] at hl ⊢
        omega
      rw [splitChunksAux_cons]
      cases hdrop : (d :: ds).drop chunkSize with
      | nil => simp [hdrop, splitChunksAux_nil]
      | cons e es =>
        rw [hdrop] at hlen
        have hne : splitChunksAux (e :: es) (i + 1) ≠ [] := by
          rw [splitChunksAux_cons]
          exact List.cons_ne_nil _ _
        rw [List.dropLast_cons_of_ne_nil hne]
        intro p hp
        rcases List.mem_cons.mp hp with hph | hpt
        · subst hph
          have hgt : chunkSize < (d :: ds).length := by
            by_contra hle
            have hdn : (d :: ds).drop chunkSize = [] := by
              rw [List.drop_eq_nil_iff]
              omega
            rw [hdn] at hdrop
            cases hdrop
          show ((d :: ds).take chunkSize).length = chunkSize
          rw [List.length_take]
          exact Nat.min_eq_left (Nat.le_of_lt hgt)
        · exact ih _ hlen (i + 1) p hpt

theorem splitChunksAux_keys : ∀ (n : Nat) (l : List Nat), l.length ≤ n → ∀ i : Int,
    (splitChunksAux l i).map Prod.fst =
      (List.range (splitChunksAux l i).length).map (fun k : Nat => i + (k : Int)) := by
  intro n
  induction n with
  | zero =>
    intro l hl i
    have hnil : l = [] := List.length_eq_zero.mp (Nat.le_zero.mp hl)
    subst hnil
    simp [splitChunksAux_nil]
  | succ n ih =>
    intro l hl i
    cases l with
    | nil => simp [splitChunksAux_nil]
    | cons d ds =>
      have hlen : ((d :: ds).drop chunkSize).length ≤ n := by
        rw [List.length_drop]
        have hc : chunkSize = 8192 := rfl
        simp only [List.length_cons] at hl ⊢
        omega
      rw [splitChunksAux_cons]
      simp only [List.map_cons, List.length_cons]
      rw [ih _ hlen (i + 1), List.range_succ_eq_map, List.map_cons, List.map_map]
      refine congrArg₂ List.cons (by simp) ?_
      refine List.map_congr_left ?_
      intro k _
      simp only [Function.comp_apply]
      push_cast
      ring

/-- C6: chunking round-trips. Concatenating the chunks of `splitIntoChunks b`
in index order yields `b`; the number of chunks is
`ceil(len(b) / chunkSize)` (written `(len(b) + (chunkSize-1)) / chunkSize`,
which is 0 for empty `b`); every chunk except possibly the last has length
exactly `chunkSize`, every chunk (in particular the last) has length at
most `chunkSize`; and the chunk keys are exactly `0 .. n-1` in order. -/
theorem c6_chunking_roundtrip (b : List Nat) :
    ((splitIntoChunks b).map Prod.snd).flatten = b ∧
    (splitIntoChunks b).length = (b.length + (chunkSize - 1)) / chunkSize ∧
    (∀ p ∈ (splitIntoChunks b).dropLast, p.2.length = chunkSize) ∧
    (∀ p ∈ splitIntoChunks b, p.2.length ≤ chunkSize) ∧
    (splitIntoChunks b).map Prod.fst =
      (List.range (splitIntoChunks b).length).map (fun k : Nat => (k : Int)) := by
  refine ⟨splitChunksAux_flatten b.length b le_rfl 0,
          splitChunksAux_length b.length b le_rfl 0,
          splitChunksAux_dropLast_sizes b.length b le_rfl 0,
          splitChunksAux_sizes b.length b le_rfl 0, ?_⟩
  rw [splitIntoChunks, splitChunksAux_keys b.length b le_rfl 0]
  refine List.map_congr_left ?_
  intro k _
  simp

/-- C6, witness for `c6_chunking_roundtrip`: instances of the round-trip
and chunk-count conclusions at the concrete input `[1, 2, 3]`. -/
theorem c6_chunking_roundtrip_witness :
    ((splitIntoChunks [1, 2, 3]).map Prod.snd).flatten = [1, 2, 3] ∧
    (splitIntoChunks [1, 2, 3]).length = (3 + (chunkSize - 1)) / chunkSize :=
  ⟨(c6_chunking_roundtrip [1, 2, 3]).1, (c6_chunking_roundtrip [1, 2, 3]).2.1⟩

/-- C4, counterexample to the claim as stated: the peer-id-map update in
`EnhancedNode.handleIncomingMessage` is a blind overwrite, so a second
message over the same connection carrying a different sender id changes
the stored node id: after `msgA_C4` the connection maps to
`127.0.0.1:7001`, and after `msgB_C4` it maps to `127.0.0.1:7002`. -/
theorem c4_counterexample_mapping_overwritten :
    lookupA (EnhancedNode.updatePeerIDMap "S" [] msgA_C4) "127.0.0.1:52000" =
      some "127.0.0.1:7001" ∧
    lookupA (EnhancedNode.updatePeerIDMap "S"
        (EnhancedNode.updatePeerIDMap "S" [] msgA_C4) msgB_C4) "127.0.0.1:52000" =
      some "127.0.0.1:7002" := by
  constructor <;> decide

/-- C4, amended: the map records the sender id of the most recent
qualifying message from each connection, so it is monotone only when the
sender id carried over a connection is constant (the expected case: a
peer's sender field is its fixed listen address). Formally: if every
handled message on connection `c` carries sender id `s`, then after any
sequence of handled messages the entry for `c` is unchanged or equals `s`
— in particular once it is `s` it never changes. -/
theorem c4_mapping_monotone_for_constant_sender (selfID c s : String) :
    ∀ (msgs : List Message) (m0 : List (String × String)),
      (∀ m ∈ msgs, m.fromPeerID = c → m.senderID = s) →
      lookupA (msgs.foldl (EnhancedNode.updatePeerIDMap selfID) m0) c = lookupA m0 c ∨
      lookupA (msgs.foldl (EnhancedNode.updatePeerIDMap selfID) m0) c = some s := by
  intro msgs
  induction msgs with
  | nil =>
    intro m0 hc
    left
    rfl
  | cons m ms ih =>
    intro m0 hc
    simp only [List.foldl_cons]
    have hstep : lookupA (EnhancedNode.updatePeerIDMap selfID m0 m) c = lookupA m0 c ∨
        lookupA (EnhancedNode.updatePeerIDMap selfID m0 m) c = some s := by
      simp only [EnhancedNode.updatePeerIDMap]
      split
      · rw [lookupA_insertA]
        by_cases hcm : c = m.fromPeerID
        · right
          rw [if_pos hcm, hc m (List.mem_cons_self m ms) hcm.symm]
        · left
          rw [if_neg hcm]
      · left
        rfl
    have htail := ih (EnhancedNode.updatePeerIDMap selfID m0 m)
      (fun mm hm hf => hc mm (List.mem_cons_of_mem m hm) hf)
    rcases htail with h1 | h1
    · rcases hstep with h2 | h2
      · left; rw [h1, h2]
      · right; rw [h1, h2]
    · right
      exact h1

/-- C4, witness for `c4_mapping_monotone_for_constant_sender` at the
single-message trace `[msgA_C4]`. -/
theorem c4_mapping_monotone_for_constant_sender_witness :
    lookupA ([msgA_C4].foldl (EnhancedNode.updatePeerIDMap "S") []) "127.0.0.1:52000" =
        lookupA ([] : List (String × String)) "127.0.0.1:52000" ∨
    lookupA ([msgA_C4].foldl (EnhancedNode.updatePeerIDMap "S") []) "127.0.0.1:52000" =
        some "127.0.0.1:7001" :=
  c4_mapping_monotone_for_constant_sender "S" "127.0.0.1:52000" "127.0.0.1:7001"
    [msgA_C4] [] (by decide)

/-- C7: encryption round-trips. For any primitives satisfying the Go
standard library contracts — RSA-OAEP decryption with the recipient's
private key inverts encryption with its public key for plaintexts of at
most `k - 2*hLen - 2 = 190` bytes (2048-bit RSA, SHA-256), signing with
the sender's private key verifies under its public key, base64 decoding
inverts encoding, and PEM parsing inverts marshalling — `DecryptMessage`
applied by the recipient to the envelope produced by the sender's
`EncryptMessage(peer, m, t)` succeeds and returns exactly `(m, t)`,
provided the key stored for `peer` is the recipient's public key. -/
theorem c7_encrypt_decrypt_roundtrip {K P σ τ : Type}
    (rsaEncryptOAEP : K → List Nat → Option (List Nat))
    (rsaDecryptOAEP : P → List Nat → Option (List Nat))
    (signPKCS1v15 : P → List Nat → Option (List Nat))
    (verifyPKCS1v15 : K → List Nat → List Nat → Bool)
    (sha256 : List Nat → List Nat)
    (b64encode : List Nat → σ) (b64decode : σ → Option (List Nat))
    (marshalPKIX : K → Option τ) (parsePKIX : τ → Option K)
    (now : Int)
    (sendPriv recipPriv : P) (sendPub recipPub recipPub2 : K)
    (sendKeys recipKeys : List (String × K)) (peerID : String)
    (m : List Nat) (t : String)
    (hkey : lookupA sendKeys peerID = some recipPub)
    (henc : ∀ x : List Nat, x.length ≤ 190 →
      ∃ c, rsaEncryptOAEP recipPub x = some c ∧ rsaDecryptOAEP recipPriv c = some x)
    (hsig : ∀ h : List Nat,
      ∃ s, signPKCS1v15 sendPriv h = some s ∧ verifyPKCS1v15 sendPub h s = true)
    (hb64 : ∀ x : List Nat, b64decode (b64encode x) = some x)
    (hpem : ∃ pem, marshalPKIX sendPub = some pem ∧ parsePKIX pem = some sendPub)
    (hm : m.length ≤ 190) :
    Except.bind
      (CryptoManager.EncryptMessage rsaEncryptOAEP signPKCS1v15 sha256 b64encode
        marshalPKIX now ⟨sendPriv, sendPub, sendKeys⟩ peerID m t)
      (fun env => CryptoManager.DecryptMessage rsaDecryptOAEP verifyPKCS1v15 sha256
        b64decode parsePKIX ⟨recipPriv, recipPub2, recipKeys⟩ env) = .ok (m, t) := by
  obtain ⟨c, hc, hdc⟩ := henc m hm
  obtain ⟨s, hs, hvs⟩ := hsig (sha256 m)
  obtain ⟨pem, hmar, hpar⟩ := hpem
  simp only [CryptoManager.EncryptMessage, hkey, hc, hs, hmar, Except.bind]
  simp only [CryptoManager.DecryptMessage, hb64, hdc, hpar, hvs, if_true]

/-- C7, witness for `c7_encrypt_decrypt_roundtrip`: concrete primitives
satisfying the contracts, a sender whose key table stores the recipient's
public key `5` under the peer id, and plaintext `[1, 2, 3]` of type
`text`. -/
theorem c7_encrypt_decrypt_roundtrip_witness :
    Except.bind
      (CryptoManager.EncryptMessage idEncC7 idSigC7 idShaC7 idB64eC7 idMarC7 0
        ⟨0, 7, [("127.0.0.1:7002", 5)]⟩ "127.0.0.1:7002" [1, 2, 3] "text")
      (fun env => CryptoManager.DecryptMessage idDecC7 okVerC7 idShaC7 idB64dC7 idParC7
        ⟨1, 9, []⟩ env) = .ok ([1, 2, 3], "text") :=
  c7_encrypt_decrypt_roundtrip idEncC7 idDecC7 idSigC7 okVerC7 idShaC7 idB64eC7 idB64dC7
    idMarC7 idParC7 0 0 1 7 5 9 [("127.0.0.1:7002", 5)] [] "127.0.0.1:7002" [1, 2, 3]
    "text" (by decide) (fun x _ => ⟨x, rfl, rfl⟩) (fun h => ⟨h, rfl, rfl⟩)
    (fun x => rfl) ⟨7, rfl, rfl⟩ (by decide)

/-- C8: for a peer id with no entry in the peer-key table, `EncryptMessage`
returns the `NoPeerKey` error (and no envelope), and `broadcastEncrypted`
skips that peer: no frame keyed by its conn id appears among the frames
placed on send queues, while the loop still processes the remaining peers
(it is total, so the node keeps running). -/
theorem c8_no_peer_key_drops_and_skips {K P σ τ : Type}
    (rsaEncryptOAEP : K → List Nat → Option (List Nat))
    (signPKCS1v15 : P → List Nat → Option (List Nat))
    (sha256 : List Nat → List Nat)
    (b64encode : List Nat → σ)
    (marshalPKIX : K → Option τ)
    (now : Int)
    (peers : List (String × Bool)) (pidMap : List (String × String))
    (cm : CryptoManager K P) (m : List Nat) (t : String) (connID nid : String)
    (hmap : lookupA pidMap connID = some nid)
    (hkey : lookupA cm.peerKeys nid = none) :
    CryptoManager.EncryptMessage rsaEncryptOAEP signPKCS1v15 sha256 b64encode marshalPKIX
        now cm nid m t = .error ("no public key for peer: " ++ nid) ∧
    (EnhancedNode.broadcastEncrypted rsaEncryptOAEP signPKCS1v15 sha256 b64encode
        marshalPKIX now peers pidMap cm m t).all (fun o => o.1 != connID) = true := by
  have herr : CryptoManager.EncryptMessage rsaEncryptOAEP signPKCS1v15 sha256 b64encode
      marshalPKIX now cm nid m t = .error ("no public key for peer: " ++ nid) := by
    simp only [CryptoManager.EncryptMessage, hkey]
  refine ⟨herr, ?_⟩
  induction peers with
  | nil => rfl
  | cons pr rest ih =>
    obtain ⟨pid, sendOk⟩ := pr
    simp only [EnhancedNode.broadcastEncrypted]
    split
    · exact ih
    · rename_i actual hpl
      split
      · exact ih
      · rename_i env henc
        by_cases hpc : pid = connID
        · subst hpc
          rw [hmap] at hpl
          injection hpl with hpl
          subst hpl
          rw [herr] at henc
          cases henc
        · cases hs : sendOk with
          | true =>
            simp only [if_true, List.all_cons, Bool.and_eq_true, bne_iff_ne]
            exact ⟨hpc, ih⟩
          | false => simpa using ih

/-- C8, witness for `c8_no_peer_key_drops_and_skips`: one connected peer
`c` mapped to node id `n`, with an empty peer-key table. -/
theorem c8_no_peer_key_drops_and_skips_witness :
    CryptoManager.EncryptMessage idEncC7 idSigC7 idShaC7 idB64eC7 idMarC7 0
        (⟨0, 7, []⟩ : CryptoManager Nat Nat) "n" [1] "text" =
      .error ("no public key for peer: " ++ "n") ∧
    (EnhancedNode.broadcastEncrypted idEncC7 idSigC7 idShaC7 idB64eC7 idMarC7 0
        [("c", true)] [("c", "n")] (⟨0, 7, []⟩ : CryptoManager Nat Nat) [1] "text").all
      (fun o => o.1 != "c") = true :=
  c8_no_peer_key_drops_and_skips idEncC7 idSigC7 idShaC7 idB64eC7 idMarC7 0
    [("c", true)] [("c", "n")] ⟨0, 7, []⟩ [1] "text" "c" "n" (by decide) rfl

theorem insertA_lookup_none {κ ν : Type} [DecidableEq κ] (l : List (κ × ν)) (k : κ) (v : ν)
    (h : lookupA l k = none) : insertA l k v = l ++ [(k, v)] := by
  induction l with
  | nil => rfl
  | cons p t ih =>
    obtain ⟨a, b⟩ := p
    by_cases hak : a = k
    · simp [lookupA, hak] at h
    · simp only [lookupA, hak, if_false] at h
      simp [insertA, hak, ih h]

/-- C9: duplicate connections are suppressed and self-connects refused.
`addPeer` on a conn id already in the table closes the new socket (`true`)
and leaves the node state unchanged; `connectToPeer` on the node's own id
performs no dial; the accept path of `handleServer` closes a socket whose
remote address is already in the table and enqueues no peer; and `addPeer`
preserves at-most-one-entry-per-conn-id (key `Nodup`) in the peer table. -/
theorem c9_duplicate_suppression :
    (∀ (n : Node) (peer q : Peer),
        lookupA n.peers peer.id = some q → n.addPeer peer = (n, true)) ∧
    (∀ n : Node, n.connectToPeer n.id = none) ∧
    (∀ (n : Node) (a : String) (q : Peer),
        lookupA n.peers a = some q → n.handleServerAccept a = (true, none)) ∧
    (∀ (n : Node) (peer : Peer),
        (n.peers.map Prod.fst).Nodup → (((n.addPeer peer).1).peers.map Prod.fst).Nodup) := by
  refine ⟨?_, ?_, ?_, ?_⟩
  · intro n peer q hl
    simp only [Node.addPeer, hl]
  · intro n
    simp only [Node.connectToPeer]
    simp only [true_or, if_true]
  · intro n a q hl
    simp only [Node.handleServerAccept, hl]
  · intro n peer hnd
    simp only [Node.addPeer]
    cases hl : lookupA n.peers peer.id with
    | some q => exact hnd
    | none =>
      dsimp only
      rw [insertA_lookup_none n.peers peer.id peer hl, List.map_append, List.nodup_append]
      refine ⟨hnd, List.nodup_singleton _, ?_⟩
      intro a ha hb
      simp only [List.map_cons, List.map_nil, List.mem_singleton] at hb
      subst hb
      exact lookupA_none_not_memKeys n.peers peer.id hl ha

/-- C9, witness for `c9_duplicate_suppression`: adding a peer whose conn id
`c` is already in the table returns the unchanged node and closes the
connection, and a self-connect dials nothing. -/
theorem c9_duplicate_suppression_witness :
    Node.addPeer ⟨"127.0.0.1:7001", [("c", ⟨"c"⟩)], ["c"]⟩ ⟨"c"⟩ =
      (⟨"127.0.0.1:7001", [("c", ⟨"c"⟩)], ["c"]⟩, true) ∧
    Node.connectToPeer ⟨"127.0.0.1:7001", [], []⟩ "127.0.0.1:7001" = none :=
  ⟨c9_duplicate_suppression.1 ⟨"127.0.0.1:7001", [("c", ⟨"c"⟩)], ["c"]⟩ ⟨"c"⟩ ⟨"c"⟩
     (by decide),
   c9_duplicate_suppression.2.1 ⟨"127.0.0.1:7001", [], []⟩⟩
